import Mathlib

/-!
Verification development for the arcis-wheel repository.

The code under scrutiny is a TypeScript game client (`SpinningWheelGame` in
`game.ts`), two Next.js API handlers (the player store / weekly-reset handler
in `pages/api/player` and the leaderboard handler in `pages/api/leaderboard`),
and the Arcium submission helpers (`lib/program.ts`, `utils/arciumClient.ts`).
Each Lean definition below is a direct shallow embedding of one source
function: JavaScript numbers are modelled as `ℚ` (with `Math.round` made
explicit), timestamps as `ℤ` (milliseconds), the Redis key-value store as
association lists, and asynchronous I/O as explicit oracle parameters.
-/

namespace ArcisWheel

/-- JavaScript `Math.round`: round half toward positive infinity,
`Math.round x = ⌊x + 0.5⌋`. -/
def jsRound (x : ℚ) : ℤ := Int.floor (x + 1 / 2)

/-- JavaScript `String.prototype.includes`: substring containment test. -/
def jsIncludes (s pat : String) : Bool := decide (pat.toList <:+: s.toList)

/-! ## Rate-limited credit ledger (game.ts `SpinningWheelGame`) -/

/-- The effect string of one wheel segment, as classified by `applyResult`:
a string containing `x` is a multiplier (`parseFloat` value `m`), a string
containing `%` is a percentage (`parseFloat` value `p`), anything else is a
flat adjustment whose `parseFloat` may be `NaN` (modelled as `none`). -/
inductive SegmentEffect where
  | mult (m : ℚ)
  | pct (p : ℚ)
  | flat (a : Option ℚ)
  deriving DecidableEq

/-- The relative change `e` a scaling segment effect denotes: `m` for a
multiplier string and `p/100` for a percentage string. -/
def SegmentEffect.value : SegmentEffect → ℚ
  | .mult m => m
  | .pct p => p / 100
  | .flat a => a.getD 0

/-- Whether the effect is of the multiplier or percentage form. -/
def SegmentEffect.isScaling : SegmentEffect → Bool
  | .mult _ => true
  | .pct _ => true
  | .flat _ => false

/-- The wheel configuration `this.wheelValues` (the eight strings 2x, 3x,
0.5x, -0.6x, -20%, 30%, -50%, -80%), with each string parsed as
`applyResult` parses it. -/
def wheelValues : List SegmentEffect :=
  [.mult 2, .mult 3, .mult (1 / 2), .mult (-(3 / 5)),
   .pct (-20), .pct 30, .pct (-50), .pct (-80)]

/-- The segment count `this.wheelSections = 8`. -/
def wheelSections : ℕ := 8

/-- The daily limit `this.spinsPerDay = 5`. -/
def spinsPerDay : ℕ := 5

/-- Embedding of `SpinningWheelGame.applyResult(result, countToLeaderboard)` restricted to
its effect on `this.playerCredits`.  Practice spins return the balance
untouched; otherwise the delta of the segment is added and the result is stored as
`Math.max(0, Math.round(this.playerCredits))`. -/
def applyResult (credits : ℚ) (eff : SegmentEffect) (countToLeaderboard : Bool) : ℚ :=
  if !countToLeaderboard then credits
  else
    let credits' :=
      match eff with
      | .mult m =>
        if 0 < m then credits + credits * m
        else credits + -(credits * |m|)
      | .pct p =>
        if 0 < p then credits + credits * (p / 100)
        else credits + -(credits * (|p| / 100))
      | .flat a =>
        match a with
        | some v => credits + v
        | none => credits
    ((max 0 (jsRound credits') : ℤ) : ℚ)

/-- The in-memory session state the game mutates: `playerCredits`,
`spinsUsedToday`, `lastSpinResetDate` and `lastClaimTime`. -/
structure GameState where
  playerCredits : ℚ
  spinsUsedToday : ℕ
  lastSpinResetDate : Option String
  lastClaimTime : Option ℤ
  deriving DecidableEq

/-- The UTC day-rollover check duplicated at several call sites
(`checkSpinLimit`, `spinWheelDaily`, `handleArciumSpinResult`,
`updateDisplay`): if the stored reset date differs from the current UTC date
string, zero the usage counter and adopt the current date. -/
def dayRollover (s : GameState) (today : String) : GameState :=
  if s.lastSpinResetDate ≠ some today then
    { s with spinsUsedToday := 0, lastSpinResetDate := some today }
  else s

/-- Outcome of `handleArciumSpinResult`: the mutated session state,
whether the unconditional `checkSpinLimit()` refresh inside it triggered a
rollover save, and whether the count-conditional `saveGameData` and
`updateLeaderboard` calls were issued. -/
structure SpinEffects where
  state : GameState
  rolloverSaved : Bool
  saveCalled : Bool
  leaderboardUpdated : Bool
  deriving DecidableEq

/-- Embedding of `SpinningWheelGame.handleArciumSpinResult(result, transactionSignature,
countToLeaderboard)`: clamp the 1-based result into a 0-based segment index,
look the segment up in `wheelValues`, bump the daily counter (after a
rollover check) when the spin counts, and apply the credit effect.  The
handler then calls `checkSpinLimit()` unconditionally, whose rollover
branch zeroes the counter, adopts the current date and issues a
fire-and-forget `saveGameData` when the stored reset date is stale (the
rollover blocks repeated inside `updateDisplay` see an up-to-date date
afterwards and are no-ops).  Finally, persistence plus the leaderboard
refresh are issued only when the spin counts. -/
def handleArciumSpinResult (s : GameState) (today : String) (result : ℤ)
    (countToLeaderboard : Bool) : SpinEffects :=
  let segmentIndex : ℕ := (max 0 (min (result - 1) ((wheelSections : ℤ) - 1))).toNat
  let eff := wheelValues.getD segmentIndex (.flat none)
  let s1 :=
    if countToLeaderboard then
      let s' := dayRollover s today
      { s' with spinsUsedToday := s'.spinsUsedToday + 1 }
    else s
  let s2 := { s1 with playerCredits := applyResult s1.playerCredits eff countToLeaderboard }
  let s3 := dayRollover s2 today
  let rolloverSaved := decide (s2.lastSpinResetDate ≠ some today)
  { state := s3, rolloverSaved := rolloverSaved,
    saveCalled := countToLeaderboard, leaderboardUpdated := countToLeaderboard }

/-- The one error `spinWheelDaily` raises before submitting: the daily limit
is exhausted. -/
inductive DailySpinError where
  | limitExceeded
  deriving DecidableEq

/-- Result of a daily spin attempt: the error (if the limit gate fired), the
resulting session state, whether any rollover along the attempt issued a
save, and the persistence flags of the settled spin. -/
structure DailySpinOutcome where
  error : Option DailySpinError
  state : GameState
  resetSaved : Bool
  saveCalled : Bool
  leaderboardUpdated : Bool
  deriving DecidableEq

/-- Embedding of `SpinningWheelGame.spinWheelDaily()` composed with the settlement of a
successful submission carrying segment `result`: run the UTC rollover check
(saving immediately if it fired), refuse with the limit error when
`spinsUsedToday >= spinsPerDay`, otherwise settle via
`handleArciumSpinResult` with `countToLeaderboard = true`. -/
def spinWheelDaily (s : GameState) (today : String) (result : ℤ) : DailySpinOutcome :=
  let s0 := dayRollover s today
  let resetSaved := decide (s.lastSpinResetDate ≠ some today)
  if spinsPerDay ≤ s0.spinsUsedToday then
    { error := some .limitExceeded, state := s0, resetSaved := resetSaved,
      saveCalled := false, leaderboardUpdated := false }
  else
    let r := handleArciumSpinResult s0 today result true
    { error := none, state := r.state, resetSaved := resetSaved || r.rolloverSaved,
      saveCalled := r.saveCalled, leaderboardUpdated := r.leaderboardUpdated }

/-! ## Claim cooldown (game.ts `canClaim` / `claimBasePoints`) -/

/-- The claim cooldown constant, 24 * 60 * 60 * 1000 milliseconds. -/
def cooldownPeriod : ℤ := 24 * 60 * 60 * 1000

/-- Embedding of `SpinningWheelGame.canClaim()`: claimable when no claim was ever made or
at least 24 hours have passed since the last one. -/
def canClaim (s : GameState) (now : ℤ) : Bool :=
  match s.lastClaimTime with
  | none => true
  | some t => decide (cooldownPeriod ≤ now - t)

/-- The claim-path error: cooldown still active. -/
inductive ClaimError where
  | cooldownActive
  deriving DecidableEq

/-- Result of `claimBasePoints`: the error (if the cooldown gate fired), the
resulting state, the amount awarded, and the persistence flags. -/
structure ClaimOutcome where
  error : Option ClaimError
  state : GameState
  awarded : Option ℕ
  saveCalled : Bool
  leaderboardUpdated : Bool
  deriving DecidableEq

/-- Embedding of `SpinningWheelGame.claimBasePoints()` (past the wallet-connectivity
guard): refuse while `canClaim` is false, otherwise add the flat
`basePoints = 100`, stamp `lastClaimTime = Date.now()`, save and refresh the
leaderboard. -/
def claimBasePoints (s : GameState) (now : ℤ) : ClaimOutcome :=
  if !canClaim s now then
    { error := some .cooldownActive, state := s, awarded := none,
      saveCalled := false, leaderboardUpdated := false }
  else
    { error := none,
      state := { s with playerCredits := s.playerCredits + 100, lastClaimTime := some now },
      awarded := some 100, saveCalled := true, leaderboardUpdated := true }

/-! ## Remote player store (pages/api/player handler) -/

/-- The `PlayerData` record as stored under the player key (the `claimTime` field is
nullable, `lastSpinResetDate` is optional). -/
structure PlayerData where
  username : String
  credits : ℤ
  spinsLeft : ℤ
  claimTime : Option ℤ
  walletAddress : String
  lastSpinResetDate : Option String
  deriving DecidableEq

/-- The default record created on first touch: `Player_` plus the first 8
characters of the wallet, zero credits, five spins, no claim, the current date. -/
def defaultPlayer (wallet today : String) : PlayerData :=
  { username := "Player_" ++ wallet.take 8, credits := 0, spinsLeft := 5,
    claimTime := none, walletAddress := wallet, lastSpinResetDate := some today }

/-- The request body of the POST branch: every field is optional and, when
present, overrides the stored value (JS object spread).  A present
`claimTime` or `lastSpinResetDate` may itself carry `null`. -/
structure PlayerUpdate where
  username : Option String := none
  credits : Option ℤ := none
  spinsLeft : Option ℤ := none
  claimTime : Option (Option ℤ) := none
  walletAddress : Option String := none
  lastSpinResetDate : Option (Option String) := none
  deriving DecidableEq

/-- The spread `{ ...existing, ...updates }`. -/
def mergeUpdate (e : PlayerData) (u : PlayerUpdate) : PlayerData :=
  { username := u.username.getD e.username,
    credits := u.credits.getD e.credits,
    spinsLeft := u.spinsLeft.getD e.spinsLeft,
    claimTime := u.claimTime.getD e.claimTime,
    walletAddress := u.walletAddress.getD e.walletAddress,
    lastSpinResetDate := u.lastSpinResetDate.getD e.lastSpinResetDate }

/-- Result of the POST branch: the record written back and whether the
`leaderboard:credits` sorted set received a `zadd`. -/
structure SaveResult where
  player : PlayerData
  rankingUpserted : Bool
  deriving DecidableEq

/-- The POST branch of the player API handler: read the stored record (or
the default), detect a UTC day change, spread the client updates over it,
force `walletAddress` and `lastSpinResetDate`, force `spinsLeft = 5` on a
day change regardless of the client value, and upsert the ranking when the
update carried `credits` and the stored result is non-negative. -/
def savePlayerPost (stored : Option PlayerData) (u : PlayerUpdate)
    (wallet today : String) : SaveResult :=
  let existing := stored.getD (defaultPlayer wallet today)
  let isNewDay : Bool :=
    decide (existing.lastSpinResetDate = none) ||
      decide (existing.lastSpinResetDate ≠ some today)
  let merged := mergeUpdate existing u
  let updated := { merged with walletAddress := wallet, lastSpinResetDate := some today }
  let updated := if isNewDay then { updated with spinsLeft := 5 } else updated
  { player := updated, rankingUpserted := u.credits.isSome && decide (0 ≤ updated.credits) }

/-! ## Weekly credit reset (pages/api/player/reset-weekly handler) -/

/-- First-match lookup in an association list keyed by wallet address
(`redis.get` of `player:<wallet>`). -/
def lookupRec : List (String × PlayerData) → String → Option PlayerData
  | [], _ => none
  | (k, v) :: rest, w => if k = w then some v else lookupRec rest w

/-- The store write of a player record for a key already present: replace the
stored value. -/
def setRecord : List (String × PlayerData) → String → PlayerData →
    List (String × PlayerData)
  | [], _, _ => []
  | (k, p) :: rest, w, v =>
    (if k = w then (k, v) else (k, p)) :: setRecord rest w v

/-- The Redis state the weekly-reset handler touches: the
`system:lastResetWeek` marker, the `players:all` set, the per-player
records, and the `leaderboard:credits` sorted set (ascending by score). -/
structure Store where
  lastResetWeek : Option ℤ
  players : List String
  records : List (String × PlayerData)
  leaderboard : List (String × ℤ)
  deriving DecidableEq

/-- The per-player sweep of the weekly reset: for each registered wallet in
order, zero the credits of its record when one exists (counting it), and
skip wallets without a record. -/
def sweepPlayers : List String → List (String × PlayerData) → ℕ →
    List (String × PlayerData) × ℕ
  | [], recs, c => (recs, c)
  | w :: ws, recs, c =>
    match lookupRec recs w with
    | some p => sweepPlayers ws (setRecord recs w { p with credits := 0 }) (c + 1)
    | none => sweepPlayers ws recs c

/-- The weekly-reset handler after auth: no-op with the already-reset
message when `system:lastResetWeek` equals the current week, otherwise sweep
every registered player, delete `leaderboard:credits`, and record the
current week.  Returns the new store and the response message. -/
def resetWeeklyHandler (st : Store) (currentWeek : ℤ) : Store × String :=
  if st.lastResetWeek = some currentWeek then
    (st, "Already reset this week")
  else
    let swept := sweepPlayers st.players st.records 0
    ({ st with records := swept.1, leaderboard := [], lastResetWeek := some currentWeek },
      "Reset " ++ toString swept.2 ++ " players")

/-! ## Computation finalization polling (lib/program.ts) -/

/-- What one `getAccountInfo` call inside the poll loop can observe: the
computation account exists, it does not exist yet, or the RPC call threw. -/
inductive PollStep where
  | found
  | absent
  | errored
  deriving DecidableEq

/-- The two ways the poll loop ends. -/
inductive PollOutcome where
  | finalizedOk (payload : String)
  | timedOut (msg : String)
  deriving DecidableEq

/-- Observable trace of the poll loop: its outcome, the number of
`getAccountInfo` checks performed, the total milliseconds slept, and the
index of the check that found the account. -/
structure PollResult where
  outcome : PollOutcome
  checks : ℕ
  sleepMs : ℕ
  foundAt : Option ℕ
  deriving DecidableEq

/-- The loop body of `awaitComputationFinalization`, indexed by the
attempt number and remaining attempts: return the finalized payload as soon as the
account exists, sleep `retryDelay` ms after an unsuccessful check, and log
and continue (without sleeping) when the check throws; when the attempts run
out, throw the timeout error. -/
def pollFrom (oracle : ℕ → PollStep) (delay : ℕ) : ℕ → ℕ → PollResult
  | _, 0 =>
    { outcome := .timedOut "Computation finalization timeout", checks := 0,
      sleepMs := 0, foundAt := none }
  | i, fuel + 1 =>
    match oracle i with
    | .found =>
      { outcome := .finalizedOk "finalized", checks := 1, sleepMs := 0, foundAt := some i }
    | .absent =>
      let r := pollFrom oracle delay (i + 1) fuel
      { r with checks := r.checks + 1, sleepMs := r.sleepMs + delay }
    | .errored =>
      let r := pollFrom oracle delay (i + 1) fuel
      { r with checks := r.checks + 1 }

/-- The `maxRetries` count as defaulted and as passed by `submitSpinComputation`. -/
def pollMaxRetries : ℕ := 60

/-- The `retryDelay` in ms as defaulted and as passed by `submitSpinComputation`. -/
def pollRetryDelayMs : ℕ := 2000

/-- Embedding of `awaitComputationFinalization` exactly as invoked by
`submitSpinComputation` (60 retries, 2000 ms delay), with the chain
observations abstracted into `oracle`. -/
def awaitComputationFinalization (oracle : ℕ → PollStep) : PollResult :=
  pollFrom oracle pollRetryDelayMs 0 pollMaxRetries

/-! ## Arcium spin error flow (game.ts + utils/arciumClient.ts) -/

/-- The client-unavailable error message thrown by the game. -/
def msgClientUnavailable : String := "Arcium client not available"

/-- The wallet-disconnected error message thrown by the game. -/
def msgWalletNotConnected : String := "Wallet not connected"

/-- The error thrown by `initializeArciumComputation` when
`checkComputationDefinition()` reports the computation-definition account
missing. -/
def msgCompDefMissing : String :=
  "Computation definition not found. Please run: cd backend/encrypted_wheel && anchor test"

/-- The message shown by the catch block of `initializeArciumComputation`
for a given error message, mirroring its message-classification cascade. -/
def initErrShown (msg : String) : String :=
  if jsIncludes msg "Wallet not connected" then "Please connect your wallet"
  else if jsIncludes msg "not found" || jsIncludes msg "anchor test" then
    "Setup incomplete. Run: anchor test in backend/encrypted_wheel"
  else if jsIncludes msg "network" || jsIncludes msg "connection" then
    "Network error. Check your connection."
  else "Setup failed: " ++ msg

/-- Observable behaviour of `initializeArciumComputation`: the messages it
showed, the error message it rethrew (its catch block always rethrows), and
whether `isComputationInitialized` was set. -/
structure InitOutcome where
  shown : List String
  thrown : Option String
  initializedFlag : Bool
  deriving DecidableEq

/-- Embedding of `SpinningWheelGame.initializeArciumComputation()`: fail when the client
is unavailable, the wallet is disconnected, or the computation definition
account is absent — each failure shows a classified message then rethrows —
and otherwise mark initialization done and show the ready message. -/
def initializeArciumComputation (clientAvailable walletConnected compDefExists : Bool) :
    InitOutcome :=
  if !clientAvailable then
    { shown := [initErrShown msgClientUnavailable], thrown := some msgClientUnavailable,
      initializedFlag := false }
  else if !walletConnected then
    { shown := [initErrShown msgWalletNotConnected], thrown := some msgWalletNotConnected,
      initializedFlag := false }
  else if !compDefExists then
    { shown := [initErrShown msgCompDefMissing], thrown := some msgCompDefMissing,
      initializedFlag := false }
  else
    { shown := ["Ready to spin!"], thrown := none, initializedFlag := true }

/-- What `submitSpinComputation` does once reached: resolve with a segment
result and a transaction signature, or reject with an error message. -/
inductive SubmitOutcome where
  | success (result : ℤ) (signature : String)
  | failure (msg : String)
  deriving DecidableEq

/-- The message shown by the catch block of `spinWheelWithArcium`,
mirroring its message-classification cascade. -/
def spinCatchShown (m : String) : String :=
  if jsIncludes m "user rejected" || jsIncludes m "User rejected" then "Transaction cancelled"
  else if jsIncludes m "insufficient funds" then "Insufficient SOL for fees"
  else if jsIncludes m "network" || jsIncludes m "connection" then "Network error"
  else "Spin failed: " ++ m

/-- Observable behaviour of `spinWheelWithArcium`: the messages shown,
whether an exception escaped it (reaching the demo fallback of the caller), and
the raw result that was handed to `handleArciumSpinResult`, if any. -/
structure ArciumSpinOutcome where
  shown : List String
  escaped : Bool
  handledResult : Option ℤ
  deriving DecidableEq

/-- Embedding of `SpinningWheelGame.spinWheelWithArcium(countToLeaderboard)`: the try
block throws when the client is unavailable, when (un-initialized)
`initializeArciumComputation` rethrows, or when the submission rejects; its
catch block classifies and shows the message and returns without rethrowing,
so no exception escapes. -/
def spinWheelWithArcium (clientAvailable walletConnected compDefExists
    alreadyInitialized : Bool) (submit : SubmitOutcome) : ArciumSpinOutcome :=
  let tryRun : List String × Except String ℤ :=
    if !clientAvailable then ([], .error msgClientUnavailable)
    else if !alreadyInitialized then
      let io := initializeArciumComputation clientAvailable walletConnected compDefExists
      match io.thrown with
      | some m => (io.shown, .error m)
      | none =>
        match submit with
        | .success r _ => (io.shown, .ok r)
        | .failure m => (io.shown, .error m)
    else
      match submit with
      | .success r _ => ([], .ok r)
      | .failure m => ([], .error m)
  match tryRun with
  | (sh, .ok r) => { shown := sh, escaped := false, handledResult := some r }
  | (sh, .error m) =>
    { shown := sh ++ [spinCatchShown m], escaped := false, handledResult := none }

/-- The Arcium-vs-demo arbitration inside `spinWheelDaily`: the demo
fallback runs exactly when `spinWheelWithArcium` threw. -/
structure DailySpinPath where
  shown : List String
  demoApplied : Bool
  handledResult : Option ℤ
  deriving DecidableEq

/-- The `try { spinWheelWithArcium(true) } catch { spinWheelDemo(true) }`
block of `spinWheelDaily`: fall back to a synthesized random segment
(`demoResult`) only when `spinWheelWithArcium` let an exception escape. -/
def spinDailyViaArcium (clientAvailable walletConnected compDefExists
    alreadyInitialized : Bool) (submit : SubmitOutcome) (demoResult : ℤ) : DailySpinPath :=
  let a := spinWheelWithArcium clientAvailable walletConnected compDefExists
    alreadyInitialized submit
  if a.escaped then
    { shown := a.shown, demoApplied := true, handledResult := some demoResult }
  else
    { shown := a.shown, demoApplied := false, handledResult := a.handledResult }

/-! ## Leaderboard retrieval (pages/api/leaderboard handler, GET branch) -/

/-- One response entry of the leaderboard API. -/
structure LeaderboardEntry where
  walletAddress : String
  username : String
  credits : ℤ
  rank : ℕ
  deriving DecidableEq

/-- The score lookup of a member over the modelled sorted set (the zscore
call of the handler). -/
def lookupScore : List (String × ℤ) → String → Option ℤ
  | [], _ => none
  | (k, v) :: rest, m => if k = m then some v else lookupScore rest m

/-- The display username of an entry: the stored username unless the
record is missing or the name is falsy (empty), in which case the derived
placeholder from the wallet prefix is used. -/
def entryUsername (recs : List (String × PlayerData)) (m : String) : String :=
  match lookupRec recs m with
  | some p => if p.username = "" then "Player_" ++ m.take 8 else p.username
  | none => "Player_" ++ m.take 8

/-- The per-member mapping of the GET branch: each reversed member, in
order, becomes an entry with its `zscore` (0 when missing), its display
username, and the 1-based rank `index + 1`. -/
def buildEntries (lb : List (String × ℤ)) (recs : List (String × PlayerData)) :
    List String → ℕ → List LeaderboardEntry
  | [], _ => []
  | m :: rest, idx =>
    { walletAddress := m, username := entryUsername recs m,
      credits := (lookupScore lb m).getD 0, rank := idx + 1 } ::
      buildEntries lb recs rest (idx + 1)

/-- The GET branch of the leaderboard API handler: empty set gives an empty
list; otherwise `zrange` from `max 0 (total - limit)` to `total - 1`,
reverse so the highest score comes first, and build the entries.  The
search query parameter of the request is received but never read. -/
def leaderboardGet (lb : List (String × ℤ)) (recs : List (String × PlayerData))
    (limit : ℕ) (searchTerm : Option String) : List LeaderboardEntry :=
  if lb.length = 0 then []
  else
    let start := lb.length - limit
    let stop := lb.length - 1
    let members := ((lb.drop start).take (stop + 1 - start)).map Prod.fst
    buildEntries lb recs members.reverse 0

/-- A concrete fixture session (zero credits, no spins used, no reset date,
no claim yet), used to instantiate the theorems below at concrete inputs. -/
def freshSession : GameState :=
  { playerCredits := 0, spinsUsedToday := 0, lastSpinResetDate := none,
    lastClaimTime := none }

/-! ## Theorems -/

set_option maxRecDepth 8192

/-- C1: for every starting balance `b ≥ 0` and every wheel segment effect of
the multiplier form (`m`) or the percentage form (`p`, interpreted as
`p/100`), applying the effect with `countToLeaderboard = true` sets the new
balance to `max(0, round(b * (1 + e)))`; in particular the resulting balance
is never negative. -/
theorem applyResult_round_clamp (b : ℚ) (hb : 0 ≤ b) (eff : SegmentEffect)
    (heff : eff.isScaling = true) :
    applyResult b eff true = ((max 0 (jsRound (b * (1 + eff.value))) : ℤ) : ℚ) ∧
    0 ≤ applyResult b eff true := by
  have hmain : applyResult b eff true
      = ((max 0 (jsRound (b * (1 + eff.value))) : ℤ) : ℚ) := by
    cases eff with
    | mult m =>
      show ((max 0 (jsRound (if 0 < m then b + b * m else b + -(b * |m|))) : ℤ) : ℚ) = _
      by_cases hm : 0 < m
      · rw [if_pos hm, show b + b * m = b * (1 + m) from by ring]; rfl
      · rw [if_neg hm, abs_of_nonpos (not_lt.mp hm),
          show b + -(b * -m) = b * (1 + m) from by ring]; rfl
    | pct p =>
      show ((max 0 (jsRound
        (if 0 < p then b + b * (p / 100) else b + -(b * (|p| / 100)))) : ℤ) : ℚ) = _
      by_cases hp : 0 < p
      · rw [if_pos hp, show b + b * (p / 100) = b * (1 + p / 100) from by ring]; rfl
      · rw [if_neg hp, abs_of_nonpos (not_lt.mp hp),
          show b + -(b * (-p / 100)) = b * (1 + p / 100) from by ring]; rfl
    | flat a => simp [SegmentEffect.isScaling] at heff
  refine ⟨hmain, ?_⟩
  rw [hmain]
  exact_mod_cast le_max_left 0 (jsRound (b * (1 + eff.value)))

/-- Witness for C1 at balance 100 and the `2x` segment. -/
theorem applyResult_round_clamp_witness :
    applyResult 100 (SegmentEffect.mult 2) true
      = ((max 0 (jsRound (100 * (1 + (SegmentEffect.mult 2).value))) : ℤ) : ℚ) ∧
    0 ≤ applyResult 100 (SegmentEffect.mult 2) true :=
  applyResult_round_clamp 100 (by norm_num) (SegmentEffect.mult 2) rfl

/-- C8 (counterexample to the claim as stated): a practice spin settled
while the stored reset date is stale does issue a save — the unconditional
`checkSpinLimit()` call inside result handling performs the day rollover
(zeroing `spinsUsedToday` and adopting the current date, mutating the
session) and fires `saveGameData`; and since that save always carries
`credits` in its body, the player-store POST upserts the ranking index. -/
theorem practiceSpin_rollover_save :
    (handleArciumSpinResult
        { playerCredits := 100, spinsUsedToday := 3,
          lastSpinResetDate := some "2026-10-10", lastClaimTime := none }
        "2026-10-11" 1 false).rolloverSaved = true ∧
    (handleArciumSpinResult
        { playerCredits := 100, spinsUsedToday := 3,
          lastSpinResetDate := some "2026-10-10", lastClaimTime := none }
        "2026-10-11" 1 false).state
      = { playerCredits := 100, spinsUsedToday := 0,
          lastSpinResetDate := some "2026-10-11", lastClaimTime := none } ∧
    (savePlayerPost
        (some { username := "P", credits := 100, spinsLeft := 2, claimTime := none,
                walletAddress := "w1", lastSpinResetDate := some "2026-10-10" })
        { username := some "P", credits := some 100, spinsLeft := some 5,
          claimTime := some none }
        "w1" "2026-10-11").rankingUpserted = true := by
  refine ⟨by decide, by decide, by decide⟩

/-- C8 (amended): a practice-mode spin never changes the credit balance and
never issues the count-conditional store save or leaderboard refresh; and
whenever the stored reset date already equals the current UTC day it is a
complete no-op — state untouched and no save of any kind.  Only when the
stored reset date is stale does the unconditional spin-limit refresh
perform the day rollover (zeroing the counter and adopting the current
date) and issue its save, still leaving credits unchanged. -/
theorem practiceSpin_ledger_frame (s : GameState) (today : String) (result : ℤ) :
    (handleArciumSpinResult s today result false).state.playerCredits
      = s.playerCredits ∧
    (handleArciumSpinResult s today result false).saveCalled = false ∧
    (handleArciumSpinResult s today result false).leaderboardUpdated = false ∧
    (s.lastSpinResetDate = some today →
      handleArciumSpinResult s today result false =
        { state := s, rolloverSaved := false, saveCalled := false,
          leaderboardUpdated := false }) ∧
    (s.lastSpinResetDate ≠ some today →
      (handleArciumSpinResult s today result false).rolloverSaved = true ∧
      (handleArciumSpinResult s today result false).state
        = { s with spinsUsedToday := 0, lastSpinResetDate := some today }) := by
  by_cases h : s.lastSpinResetDate = some today
  · refine ⟨?_, rfl, rfl, ?_, ?_⟩
    · simp [handleArciumSpinResult, applyResult, dayRollover, h]
    · intro _
      cases s with
      | mk pc su ld lc => simp_all [handleArciumSpinResult, applyResult, dayRollover]
    · intro hn
      exact absurd h hn
  · refine ⟨?_, rfl, rfl, ?_, ?_⟩
    · simp [handleArciumSpinResult, applyResult, dayRollover, h]
    · intro hc
      exact absurd hc h
    · intro _
      constructor
      · simp [handleArciumSpinResult, applyResult, h]
      · simp [handleArciumSpinResult, applyResult, dayRollover, h]

/-- Witness for the amended C8: a practice spin on an up-to-date session is
a complete no-op. -/
theorem practiceSpin_ledger_frame_witness :
    handleArciumSpinResult
        { playerCredits := 50, spinsUsedToday := 2,
          lastSpinResetDate := some "2026-10-11", lastClaimTime := none }
        "2026-10-11" 4 false =
      { state := { playerCredits := 50, spinsUsedToday := 2,
                   lastSpinResetDate := some "2026-10-11", lastClaimTime := none },
        rolloverSaved := false, saveCalled := false, leaderboardUpdated := false } :=
  (practiceSpin_ledger_frame
    { playerCredits := 50, spinsUsedToday := 2,
      lastSpinResetDate := some "2026-10-11", lastClaimTime := none }
    "2026-10-11" 4).2.2.2.1 rfl

/-- C7: the claim fails with the cooldown error exactly when `lastClaimTime`
is set and less than 24 hours old; a successful claim awards the flat 100
credits, adds them to the balance and stamps `lastClaimTime = now`; hence an
immediate second claim fails and a claim once the 24-hour cooldown has
elapsed succeeds. -/
theorem claimBasePoints_cooldown (s : GameState) (now : ℤ) :
    ((claimBasePoints s now).error = some .cooldownActive ↔
      ∃ t, s.lastClaimTime = some t ∧ now - t < cooldownPeriod) ∧
    ((claimBasePoints s now).error = none →
      (claimBasePoints s now).state.playerCredits = s.playerCredits + 100 ∧
      (claimBasePoints s now).state.lastClaimTime = some now ∧
      (claimBasePoints s now).awarded = some 100) ∧
    ((claimBasePoints s now).error = some .cooldownActive →
      claimBasePoints s now =
        { error := some .cooldownActive, state := s, awarded := none,
          saveCalled := false, leaderboardUpdated := false }) ∧
    (s.lastClaimTime = none →
      (claimBasePoints s now).error = none ∧
      (claimBasePoints (claimBasePoints s now).state now).error = some .cooldownActive ∧
      (claimBasePoints (claimBasePoints s now).state
        (now + cooldownPeriod)).error = none) := by
  cases h : s.lastClaimTime with
  | none =>
    refine ⟨?_, ?_, ?_, ?_⟩
    · simp [claimBasePoints, canClaim, h]
    · intro _
      simp [claimBasePoints, canClaim, h]
    · intro he
      simp [claimBasePoints, canClaim, h] at he
    · intro _
      refine ⟨by simp [claimBasePoints, canClaim, h], ?_, ?_⟩
      · simp [claimBasePoints, canClaim, h, cooldownPeriod]
      · simp [claimBasePoints, canClaim, h, cooldownPeriod]
  | some t =>
    by_cases hc : cooldownPeriod ≤ now - t
    · refine ⟨?_, ?_, ?_, ?_⟩
      · constructor
        · intro he
          simp [claimBasePoints, canClaim, h, hc] at he
        · rintro ⟨u, hu, hlt⟩
          injection hu with e
          subst e
          exact absurd hlt (not_lt.mpr hc)
      · intro _
        simp [claimBasePoints, canClaim, h, hc]
      · intro he
        simp [claimBasePoints, canClaim, h, hc] at he
      · intro hn
        simp [h] at hn
    · refine ⟨?_, ?_, ?_, ?_⟩
      · constructor
        · intro _
          exact ⟨t, rfl, by omega⟩
        · intro _
          simp [claimBasePoints, canClaim, h, hc]
      · intro he
        simp [claimBasePoints, canClaim, h, hc] at he
      · intro _
        simp [claimBasePoints, canClaim, h, hc]
      · intro hn
        simp [h] at hn

/-- Witness for C7: with no prior claim, a claim at time 1000 succeeds, its
immediate repeat fails, and its repeat 24 hours later succeeds. -/
theorem claimBasePoints_cooldown_witness :
    (claimBasePoints freshSession 1000).error = none ∧
    (claimBasePoints (claimBasePoints freshSession 1000).state 1000).error
      = some .cooldownActive ∧
    (claimBasePoints (claimBasePoints freshSession 1000).state
      (1000 + cooldownPeriod)).error = none :=
  (claimBasePoints_cooldown freshSession 1000).2.2.2 rfl

/-- C2: the player-store POST merges the partial update of the client over the
stored record, always forces `lastSpinResetDate` to the current UTC date, and,
whenever today differs from the pre-merge stored reset date, stores
`spinsLeft = 5` regardless of the client-supplied value; on a same-day save
the merged client fields win. -/
theorem savePlayerPost_day_boundary (stored : Option PlayerData) (u : PlayerUpdate)
    (wallet today : String) :
    (savePlayerPost stored u wallet today).player.lastSpinResetDate = some today ∧
    (∀ p, stored = some p → p.lastSpinResetDate ≠ some today →
      (savePlayerPost stored u wallet today).player.spinsLeft = 5) ∧
    (∀ p, stored = some p → p.lastSpinResetDate = some today →
      (savePlayerPost stored u wallet today).player.spinsLeft
          = u.spinsLeft.getD p.spinsLeft ∧
      (savePlayerPost stored u wallet today).player.username
          = u.username.getD p.username ∧
      (savePlayerPost stored u wallet today).player.credits
          = u.credits.getD p.credits ∧
      (savePlayerPost stored u wallet today).player.claimTime
          = u.claimTime.getD p.claimTime ∧
      (savePlayerPost stored u wallet today).player.walletAddress = wallet) := by
  refine ⟨?_, ?_, ?_⟩
  · simp only [savePlayerPost]
    split <;> rfl
  · intro p hp hne
    subst hp
    simp [savePlayerPost, hne]
  · intro p hp heq
    subst hp
    simp [savePlayerPost, mergeUpdate, heq]

/-- Witness for C2: a stale client `spinsLeft = 2` sent across a day
boundary is stored as the full daily limit 5. -/
theorem savePlayerPost_day_boundary_witness :
    (savePlayerPost (some (defaultPlayer "w1" "2026-10-10"))
        { spinsLeft := some 2 } "w1" "2026-10-11").player.spinsLeft = 5 :=
  (savePlayerPost_day_boundary (some (defaultPlayer "w1" "2026-10-10"))
    { spinsLeft := some 2 } "w1" "2026-10-11").2.1
    (defaultPlayer "w1" "2026-10-10") rfl (by decide)

/-- C4: when the computation-definition account is absent (client available,
wallet connected), the daily spin surfaces the setup-incomplete message to
the user, the demo fallback is not applied, and no synthesized outcome is
handed to result handling — for every submission behaviour and every
would-be demo segment. -/
theorem compDefMissing_no_demo (submit : SubmitOutcome) (demoResult : ℤ) :
    (spinDailyViaArcium true true false false submit demoResult).demoApplied = false ∧
    "Setup incomplete. Run: anchor test in backend/encrypted_wheel" ∈
      (spinDailyViaArcium true true false false submit demoResult).shown ∧
    (spinDailyViaArcium true true false false submit demoResult).handledResult
      = none := by
  have h1 : initErrShown msgCompDefMissing
      = "Setup incomplete. Run: anchor test in backend/encrypted_wheel" := by decide
  cases submit <;>
    simp [spinDailyViaArcium, spinWheelWithArcium, initializeArciumComputation, h1]

/-- The rollover check is a no-op once the stored reset date is today. -/
theorem dayRollover_eq_self (s : GameState) (today : String)
    (h : s.lastSpinResetDate = some today) : dayRollover s today = s := by
  simp [dayRollover, h]

/-- With the rollover already run, an over-limit daily spin attempt fails
and leaves the state untouched. -/
theorem spinDaily_blocked (s : GameState) (today : String) (result : ℤ)
    (h : s.lastSpinResetDate = some today) (hge : spinsPerDay ≤ s.spinsUsedToday) :
    spinWheelDaily s today result =
      { error := some .limitExceeded, state := s, resetSaved := false,
        saveCalled := false, leaderboardUpdated := false } := by
  simp [spinWheelDaily, dayRollover_eq_self s today h, hge, h]

/-- With the rollover already run, an under-limit daily spin attempt
succeeds, increments the usage counter by one and keeps the current date. -/
theorem spinDaily_ok (s : GameState) (today : String) (result : ℤ)
    (h : s.lastSpinResetDate = some today) (hlt : s.spinsUsedToday < spinsPerDay) :
    (spinWheelDaily s today result).error = none ∧
    (spinWheelDaily s today result).state.spinsUsedToday = s.spinsUsedToday + 1 ∧
    (spinWheelDaily s today result).state.lastSpinResetDate = some today := by
  have hnle : ¬ spinsPerDay ≤ s.spinsUsedToday := Nat.not_le.mpr hlt
  simp [spinWheelDaily, handleArciumSpinResult, dayRollover, hnle, h]

/-- C3: with `dailySpinLimit = 5` and the day-rollover check already run for
today, a daily spin attempt with `spinsUsedToday ≥ 5` fails with the
limit-exceeded error mutating nothing, an attempt with `spinsUsedToday < 5`
proceeds and increments usage by exactly one, and from a fresh counter five
consecutive attempts succeed while the sixth fails with zero spins left. -/
theorem spinWheelDaily_limit (s : GameState) (today : String) (result : ℤ)
    (h : s.lastSpinResetDate = some today) :
    (spinsPerDay ≤ s.spinsUsedToday →
      spinWheelDaily s today result =
        { error := some .limitExceeded, state := s, resetSaved := false,
          saveCalled := false, leaderboardUpdated := false }) ∧
    (s.spinsUsedToday < spinsPerDay →
      (spinWheelDaily s today result).error = none ∧
      (spinWheelDaily s today result).state.spinsUsedToday = s.spinsUsedToday + 1) ∧
    (s.spinsUsedToday = 0 →
      (spinWheelDaily s today result).error = none ∧
      (spinWheelDaily (spinWheelDaily s today result).state today result).error
        = none ∧
      (spinWheelDaily (spinWheelDaily (spinWheelDaily s today result).state today
        result).state today result).error = none ∧
      (spinWheelDaily (spinWheelDaily (spinWheelDaily (spinWheelDaily s today
        result).state today result).state today result).state today result).error
        = none ∧
      (spinWheelDaily (spinWheelDaily (spinWheelDaily (spinWheelDaily
        (spinWheelDaily s today result).state today result).state today
        result).state today result).state today result).error = none ∧
      (spinWheelDaily (spinWheelDaily (spinWheelDaily (spinWheelDaily
        (spinWheelDaily (spinWheelDaily s today result).state today result).state
        today result).state today result).state today result).state today
        result).error = some .limitExceeded ∧
      spinsPerDay - (spinWheelDaily (spinWheelDaily (spinWheelDaily
        (spinWheelDaily (spinWheelDaily (spinWheelDaily s today result).state
        today result).state today result).state today result).state today
        result).state today result).state.spinsUsedToday = 0) := by
  refine ⟨fun hge => spinDaily_blocked s today result h hge,
    fun hlt => ⟨(spinDaily_ok s today result h hlt).1,
      (spinDaily_ok s today result h hlt).2.1⟩, ?_⟩
  intro h0
  obtain ⟨e1, u1, d1⟩ := spinDaily_ok s today result h
    (by rw [h0]; exact Nat.zero_lt_succ _)
  set s1 := (spinWheelDaily s today result).state with hs1
  obtain ⟨e2, u2, d2⟩ := spinDaily_ok s1 today result d1
    (by rw [u1, h0]; decide)
  set s2 := (spinWheelDaily s1 today result).state with hs2
  obtain ⟨e3, u3, d3⟩ := spinDaily_ok s2 today result d2
    (by rw [u2, u1, h0]; decide)
  set s3 := (spinWheelDaily s2 today result).state with hs3
  obtain ⟨e4, u4, d4⟩ := spinDaily_ok s3 today result d3
    (by rw [u3, u2, u1, h0]; decide)
  set s4 := (spinWheelDaily s3 today result).state with hs4
  obtain ⟨e5, u5, d5⟩ := spinDaily_ok s4 today result d4
    (by rw [u4, u3, u2, u1, h0]; decide)
  set s5 := (spinWheelDaily s4 today result).state with hs5
  have hfull : spinsPerDay ≤ s5.spinsUsedToday := by
    rw [u5, u4, u3, u2, u1, h0]
    decide
  have h6 := spinDaily_blocked s5 today result d5 hfull
  refine ⟨e1, e2, e3, e4, e5, by rw [h6], ?_⟩
  rw [h6]
  show spinsPerDay - s5.spinsUsedToday = 0
  rw [u5, u4, u3, u2, u1, h0]
  decide

/-- Witness for C3: a session with 5 spins already used today is refused. -/
theorem spinWheelDaily_limit_witness :
    spinWheelDaily
        { playerCredits := 100, spinsUsedToday := 5,
          lastSpinResetDate := some "2026-10-11", lastClaimTime := none }
        "2026-10-11" 1 =
      { error := some .limitExceeded,
        state := { playerCredits := 100, spinsUsedToday := 5,
                   lastSpinResetDate := some "2026-10-11", lastClaimTime := none },
        resetSaved := false, saveCalled := false, leaderboardUpdated := false } :=
  (spinWheelDaily_limit
    { playerCredits := 100, spinsUsedToday := 5,
      lastSpinResetDate := some "2026-10-11", lastClaimTime := none }
    "2026-10-11" 1 rfl).1 (by decide)

/-- The poll loop performs at most as many checks as it has attempts. -/
theorem pollFrom_checks_le (oracle : ℕ → PollStep) (d : ℕ) :
    ∀ fuel i, (pollFrom oracle d i fuel).checks ≤ fuel := by
  intro fuel
  induction fuel with
  | zero => intro i; simp [pollFrom]
  | succ n ih =>
    intro i
    cases ho : oracle i with
    | found => simp [pollFrom, ho]
    | absent =>
      simp only [pollFrom, ho]
      exact Nat.succ_le_succ (ih (i + 1))
    | errored =>
      simp only [pollFrom, ho]
      exact Nat.succ_le_succ (ih (i + 1))

/-- The poll loop sleeps at most `fuel * delay` milliseconds. -/
theorem pollFrom_sleep_le (oracle : ℕ → PollStep) (d : ℕ) :
    ∀ fuel i, (pollFrom oracle d i fuel).sleepMs ≤ fuel * d := by
  intro fuel
  induction fuel with
  | zero => intro i; simp [pollFrom]
  | succ n ih =>
    intro i
    cases ho : oracle i with
    | found => simp [pollFrom, ho]
    | absent =>
      simp only [pollFrom, ho]
      have := ih (i + 1)
      calc (pollFrom oracle d (i + 1) n).sleepMs + d ≤ n * d + d := by omega
        _ = (n + 1) * d := by ring
    | errored =>
      simp only [pollFrom, ho]
      have := ih (i + 1)
      calc (pollFrom oracle d (i + 1) n).sleepMs ≤ n * d := this
        _ ≤ (n + 1) * d := Nat.mul_le_mul_right d (Nat.le_succ n)

/-- When no check within the fuel window finds the account, the poll loop
times out after exactly `fuel` checks, sleeping `fuel * delay` ms when no
check errored. -/
theorem pollFrom_timeout (oracle : ℕ → PollStep) (d : ℕ) :
    ∀ fuel i, (∀ t, t < fuel → oracle (i + t) ≠ .found) →
    (pollFrom oracle d i fuel).outcome = .timedOut "Computation finalization timeout" ∧
    (pollFrom oracle d i fuel).checks = fuel ∧
    ((∀ t, oracle t ≠ .errored) → (pollFrom oracle d i fuel).sleepMs = fuel * d) := by
  intro fuel
  induction fuel with
  | zero => intro i _; simp [pollFrom]
  | succ n ih =>
    intro i hnf
    have hstep : ∀ t, t < n → oracle (i + 1 + t) ≠ .found := by
      intro t ht
      have := hnf (t + 1) (by omega)
      rwa [show i + (t + 1) = i + 1 + t from by omega] at this
    obtain ⟨ho1, ho2, ho3⟩ := ih (i + 1) hstep
    cases ho : oracle i with
    | found => exact absurd ho (by simpa using hnf 0 (Nat.succ_pos n))
    | absent =>
      refine ⟨by simp [pollFrom, ho, ho1], by simp [pollFrom, ho, ho2], ?_⟩
      intro hne
      simp only [pollFrom, ho]
      rw [ho3 hne]
      ring
    | errored =>
      refine ⟨by simp [pollFrom, ho, ho1], by simp [pollFrom, ho, ho2], ?_⟩
      intro hne
      exact absurd ho (hne i)

/-- When the account appears at the `j`-th check (and not earlier) within
the fuel window, the poll loop succeeds right there: `j + 1` checks,
finalized outcome, and `j * delay` ms slept when no check errored. -/
theorem pollFrom_found (oracle : ℕ → PollStep) (d : ℕ) :
    ∀ fuel j i, j < fuel → oracle (i + j) = .found →
    (∀ t, t < j → oracle (i + t) ≠ .found) →
    (pollFrom oracle d i fuel).outcome = .finalizedOk "finalized" ∧
    (pollFrom oracle d i fuel).foundAt = some (i + j) ∧
    (pollFrom oracle d i fuel).checks = j + 1 ∧
    ((∀ t, oracle t ≠ .errored) → (pollFrom oracle d i fuel).sleepMs = j * d) := by
  intro fuel
  induction fuel with
  | zero => intro j i hj; omega
  | succ n ih =>
    intro j i hj hfound hbefore
    cases j with
    | zero =>
      simp only [Nat.add_zero] at hfound
      simp [pollFrom, hfound]
    | succ k =>
      have hne0 : oracle i ≠ .found := by simpa using hbefore 0 (Nat.succ_pos k)
      have hf : oracle (i + 1 + k) = .found := by
        rwa [show i + (k + 1) = i + 1 + k from by omega] at hfound
      have hb : ∀ t, t < k → oracle (i + 1 + t) ≠ .found := by
        intro t ht
        have := hbefore (t + 1) (by omega)
        rwa [show i + (t + 1) = i + 1 + t from by omega] at this
      obtain ⟨h1, h2, h3, h4⟩ := ih k (i + 1) (by omega) hf hb
      cases ho : oracle i with
      | found => exact absurd ho hne0
      | absent =>
        refine ⟨by simp [pollFrom, ho, h1], ?_, by simp [pollFrom, ho, h3], ?_⟩
        · simp only [pollFrom, ho]
          rw [h2, show i + 1 + k = i + (k + 1) from by omega]
        · intro hne
          simp only [pollFrom, ho]
          rw [h4 hne]
          ring
      | errored =>
        refine ⟨by simp [pollFrom, ho, h1], ?_, by simp [pollFrom, ho, h3], ?_⟩
        · simp only [pollFrom, ho]
          rw [h2, show i + 1 + k = i + (k + 1) from by omega]
        · intro hne
          exact absurd ho (hne i)

/-- C5: the finalization poll performs at most 60 checks at 2000 ms spacing
(a 120000 ms sleep ceiling); it succeeds with the finalized payload at
the first check at which the computation account exists, and when no check
within the 60 attempts finds it, it fails with the timeout error. -/
theorem awaitFinalization_bounds (oracle : ℕ → PollStep) :
    (awaitComputationFinalization oracle).checks ≤ pollMaxRetries ∧
    (awaitComputationFinalization oracle).sleepMs
      ≤ pollMaxRetries * pollRetryDelayMs ∧
    pollMaxRetries * pollRetryDelayMs = 120000 ∧
    (∀ j, j < pollMaxRetries → oracle j = .found →
      (∀ i, i < j → oracle i ≠ .found) →
      (awaitComputationFinalization oracle).outcome = .finalizedOk "finalized" ∧
      (awaitComputationFinalization oracle).foundAt = some j ∧
      (awaitComputationFinalization oracle).checks = j + 1 ∧
      ((∀ i, oracle i ≠ .errored) →
        (awaitComputationFinalization oracle).sleepMs = j * pollRetryDelayMs)) ∧
    ((∀ i, i < pollMaxRetries → oracle i ≠ .found) →
      (awaitComputationFinalization oracle).outcome
        = .timedOut "Computation finalization timeout" ∧
      (awaitComputationFinalization oracle).checks = pollMaxRetries ∧
      ((∀ i, oracle i ≠ .errored) →
        (awaitComputationFinalization oracle).sleepMs
          = pollMaxRetries * pollRetryDelayMs)) := by
  refine ⟨pollFrom_checks_le oracle pollRetryDelayMs pollMaxRetries 0,
    pollFrom_sleep_le oracle pollRetryDelayMs pollMaxRetries 0, rfl, ?_, ?_⟩
  · intro j hj hfound hbefore
    have := pollFrom_found oracle pollRetryDelayMs pollMaxRetries j 0 hj
      (by simpa using hfound) (by simpa using hbefore)
    simpa using this
  · intro hnone
    exact pollFrom_timeout oracle pollRetryDelayMs pollMaxRetries 0
      (by simpa using hnone)

/-- Witness for C5: an account that materializes at the third check yields
success there, and an account that never materializes yields the timeout. -/
theorem awaitFinalization_bounds_witness :
    (awaitComputationFinalization
        (fun i => if i = 2 then .found else .absent)).outcome
      = .finalizedOk "finalized" ∧
    (awaitComputationFinalization (fun _ => .absent)).outcome
      = .timedOut "Computation finalization timeout" :=
  ⟨((awaitFinalization_bounds (fun i => if i = 2 then .found else .absent)).2.2.2.1
      2 (by decide) (by decide) (by decide)).1,
    ((awaitFinalization_bounds (fun _ => .absent)).2.2.2.2
      (fun i _ => by simp)).1⟩

/-- Looking up the key just written by `setRecord` returns the new value
exactly when the key was present. -/
theorem lookupRec_setRecord_self (recs : List (String × PlayerData))
    (w : String) (v : PlayerData) :
    lookupRec (setRecord recs w v) w = (lookupRec recs w).map (fun _ => v) := by
  induction recs with
  | nil => rfl
  | cons kv rest ih =>
    obtain ⟨k, p⟩ := kv
    by_cases hk : k = w
    · subst hk
      simp only [setRecord]
      simp only [if_true, eq_self_iff_true]
      simp [lookupRec]
    · simp only [setRecord]
      rw [if_neg hk]
      simp [lookupRec, hk, ih]


/-- `setRecord` does not disturb lookups of other keys. -/
theorem lookupRec_setRecord_ne (recs : List (String × PlayerData))
    (w w' : String) (v : PlayerData) (h : w' ≠ w) :
    lookupRec (setRecord recs w v) w' = lookupRec recs w' := by
  induction recs with
  | nil => rfl
  | cons kv rest ih =>
    obtain ⟨k, p⟩ := kv
    by_cases hk : k = w
    · subst hk
      have hkw : ¬ k = w' := fun e => h e.symm
      simp only [setRecord]
      simp only [if_true, eq_self_iff_true]
      simp [lookupRec, hkw, ih]
    · simp only [setRecord]
      rw [if_neg hk]
      simp [lookupRec, ih]

/-- The weekly sweep does not disturb records of wallets outside the swept
list. -/
theorem sweepPlayers_not_mem :
    ∀ (ws : List String) (recs : List (String × PlayerData)) (c : ℕ) (w : String),
    w ∉ ws → lookupRec (sweepPlayers ws recs c).1 w = lookupRec recs w := by
  intro ws
  induction ws with
  | nil => intro recs c w _; rfl
  | cons w' ws' ih =>
    intro recs c w hw
    have h1 : w ≠ w' := fun e => hw (e ▸ List.mem_cons_self w' ws')
    have h2 : w ∉ ws' := fun e => hw (List.mem_cons_of_mem w' e)
    cases hl : lookupRec recs w' with
    | some p =>
      simp only [sweepPlayers, hl]
      rw [ih _ _ _ h2, lookupRec_setRecord_ne _ _ _ _ h1]
    | none =>
      simp only [sweepPlayers, hl]
      exact ih _ _ _ h2

/-- Every wallet in the swept list ends with the credits of its record zeroed
(and missing records stay missing). -/
theorem sweepPlayers_mem :
    ∀ (ws : List String) (recs : List (String × PlayerData)) (c : ℕ) (w : String),
    w ∈ ws → lookupRec (sweepPlayers ws recs c).1 w
      = (lookupRec recs w).map (fun p => { p with credits := 0 }) := by
  intro ws
  induction ws with
  | nil => intro _ _ _ hw; cases hw
  | cons w' ws' ih =>
    intro recs c w hw
    by_cases hmem : w ∈ ws'
    · cases hl : lookupRec recs w' with
      | none =>
        simp only [sweepPlayers, hl]
        exact ih _ _ _ hmem
      | some p =>
        simp only [sweepPlayers, hl]
        rw [ih _ _ _ hmem]
        by_cases he : w = w'
        · subst he
          rw [lookupRec_setRecord_self, hl]
          rfl
        · rw [lookupRec_setRecord_ne _ _ _ _ he]
    · have he : w = w' := by
        rcases List.mem_cons.mp hw with h | h
        · exact h
        · exact absurd h hmem
      subst he
      cases hl : lookupRec recs w with
      | none =>
        simp only [sweepPlayers, hl]
        rw [sweepPlayers_not_mem _ _ _ _ hmem, hl]
        rfl
      | some p =>
        simp only [sweepPlayers, hl]
        rw [sweepPlayers_not_mem _ _ _ _ hmem, lookupRec_setRecord_self, hl]
        rfl

/-- The already-reset branch of the weekly handler is a pure no-op. -/
theorem resetWeekly_noop (st : Store) (wk : ℤ) (he : st.lastResetWeek = some wk) :
    resetWeeklyHandler st wk = (st, "Already reset this week") := by
  simp [resetWeeklyHandler, he]

/-- C6: the weekly credit reset is idempotent per ISO week — when the
recorded last-reset week equals the current week the handler changes
nothing and reports the reset already happened; otherwise it zeroes the
credits of every registered wallet with a record, clears the ranking index
and records the new week — so a second invocation in the same week is a
reported no-op. -/
theorem resetWeekly_idempotent (st : Store) (wk : ℤ) :
    (st.lastResetWeek = some wk →
      resetWeeklyHandler st wk = (st, "Already reset this week")) ∧
    (st.lastResetWeek ≠ some wk →
      (resetWeeklyHandler st wk).1.lastResetWeek = some wk ∧
      (resetWeeklyHandler st wk).1.leaderboard = [] ∧
      ∀ w, w ∈ st.players →
        lookupRec (resetWeeklyHandler st wk).1.records w
          = (lookupRec st.records w).map (fun p => { p with credits := 0 })) ∧
    (resetWeeklyHandler (resetWeeklyHandler st wk).1 wk
      = ((resetWeeklyHandler st wk).1, "Already reset this week")) := by
  refine ⟨resetWeekly_noop st wk, ?_, ?_⟩
  · intro hne
    refine ⟨by simp [resetWeeklyHandler, hne], by simp [resetWeeklyHandler, hne], ?_⟩
    intro w hw
    simp only [resetWeeklyHandler, if_neg hne]
    exact sweepPlayers_mem st.players st.records 0 w hw
  · refine resetWeekly_noop _ wk ?_
    by_cases he : st.lastResetWeek = some wk
    · rw [resetWeekly_noop st wk he]
      exact he
    · simp [resetWeeklyHandler, he]

/-- Witness for C6: a store already reset in week 3 is left untouched. -/
theorem resetWeekly_idempotent_witness :
    resetWeeklyHandler
        { lastResetWeek := some 3, players := ["w1"],
          records := [("w1", defaultPlayer "w1" "2026-10-11")],
          leaderboard := [("w1", 10)] } 3
      = ({ lastResetWeek := some 3, players := ["w1"],
           records := [("w1", defaultPlayer "w1" "2026-10-11")],
           leaderboard := [("w1", 10)] }, "Already reset this week") :=
  (resetWeekly_idempotent
    { lastResetWeek := some 3, players := ["w1"],
      records := [("w1", defaultPlayer "w1" "2026-10-11")],
      leaderboard := [("w1", 10)] } 3).1 rfl

/-- C10: the weekly sweep mutates only the `credits` field — a registered
wallet whose record exists ends with that record equal to the original with
`credits := 0` (username, spinsLeft, claimTime, walletAddress and
lastSpinResetDate unchanged), and a registered wallet without a record is
skipped without error. -/
theorem resetWeekly_records_frame (st : Store) (wk : ℤ) (w : String)
    (hwk : st.lastResetWeek ≠ some wk) (hw : w ∈ st.players) :
    (∀ p, lookupRec st.records w = some p →
      lookupRec (resetWeeklyHandler st wk).1.records w = some { p with credits := 0 } ∧
      ({ p with credits := 0 } : PlayerData).username = p.username ∧
      ({ p with credits := 0 } : PlayerData).spinsLeft = p.spinsLeft ∧
      ({ p with credits := 0 } : PlayerData).claimTime = p.claimTime ∧
      ({ p with credits := 0 } : PlayerData).walletAddress = p.walletAddress ∧
      ({ p with credits := 0 } : PlayerData).lastSpinResetDate = p.lastSpinResetDate ∧
      ({ p with credits := 0 } : PlayerData).credits = 0) ∧
    (lookupRec st.records w = none →
      lookupRec (resetWeeklyHandler st wk).1.records w = none) := by
  have hkey : lookupRec (resetWeeklyHandler st wk).1.records w
      = (lookupRec st.records w).map (fun p => { p with credits := 0 }) := by
    simp only [resetWeeklyHandler, if_neg hwk]
    exact sweepPlayers_mem st.players st.records 0 w hw
  refine ⟨?_, ?_⟩
  · intro p hp
    rw [hkey, hp]
    exact ⟨rfl, rfl, rfl, rfl, rfl, rfl, rfl⟩
  · intro hp
    rw [hkey, hp]
    rfl

/-- Witness for C10: sweeping a one-player store zeroes exactly the credits
of the record of that player. -/
theorem resetWeekly_records_frame_witness :
    lookupRec (resetWeeklyHandler
        { lastResetWeek := none, players := ["w1"],
          records := [("w1", { username := "Alice", credits := 42, spinsLeft := 3,
                               claimTime := none, walletAddress := "w1",
                               lastSpinResetDate := some "2026-10-11" })],
          leaderboard := [("w1", 42)] } 3).1.records "w1"
      = some { username := "Alice", credits := 0, spinsLeft := 3,
               claimTime := none, walletAddress := "w1",
               lastSpinResetDate := some "2026-10-11" } :=
  ((resetWeekly_records_frame
    { lastResetWeek := none, players := ["w1"],
      records := [("w1", { username := "Alice", credits := 42, spinsLeft := 3,
                           claimTime := none, walletAddress := "w1",
                           lastSpinResetDate := some "2026-10-11" })],
      leaderboard := [("w1", 42)] } 3 "w1" (by decide) (by decide)).1
    { username := "Alice", credits := 42, spinsLeft := 3, claimTime := none,
      walletAddress := "w1", lastSpinResetDate := some "2026-10-11" } rfl).1

/-- The entry list built by the GET branch has one entry per member. -/
theorem buildEntries_length (lb : List (String × ℤ)) (recs : List (String × PlayerData)) :
    ∀ (ms : List String) (idx : ℕ), (buildEntries lb recs ms idx).length = ms.length := by
  intro ms
  induction ms with
  | nil => intro idx; rfl
  | cons m rest ih => intro idx; simp [buildEntries, ih]

/-- The credits of the built entries are the `zscore` lookups of the
members, in order. -/
theorem buildEntries_map_credits (lb : List (String × ℤ))
    (recs : List (String × PlayerData)) :
    ∀ (ms : List String) (idx : ℕ),
    (buildEntries lb recs ms idx).map (fun e => e.credits)
      = ms.map (fun m => (lookupScore lb m).getD 0) := by
  intro ms
  induction ms with
  | nil => intro idx; rfl
  | cons m rest ih => intro idx; simp [buildEntries, ih]

/-- The ranks of the built entries are `idx + 1, idx + 2, …` by position. -/
theorem buildEntries_map_rank (lb : List (String × ℤ))
    (recs : List (String × PlayerData)) :
    ∀ (ms : List String) (idx : ℕ),
    (buildEntries lb recs ms idx).map (fun e => e.rank)
      = (List.range ms.length).map (fun i => idx + i + 1) := by
  intro ms
  induction ms with
  | nil => intro idx; rfl
  | cons m rest ih =>
    intro idx
    simp only [buildEntries, List.map_cons, List.length_cons,
      List.range_succ_eq_map, ih]
    refine congrArg (fun l => (idx + 1) :: l) ?_
    rw [List.map_map]
    refine List.map_congr_left ?_
    intro i _
    simp only [Function.comp_apply]
    omega

/-- With pairwise-distinct member keys, `zscore` recovers the stored score
of every pair in the sorted set. -/
theorem lookupScore_of_nodup :
    ∀ (lb : List (String × ℤ)), (lb.map Prod.fst).Nodup →
    ∀ q : String × ℤ, q ∈ lb → lookupScore lb q.1 = some q.2 := by
  intro lb
  induction lb with
  | nil => intro _ q hq; cases hq
  | cons kv rest ih =>
    obtain ⟨k, v⟩ := kv
    intro hnd q hq
    rw [List.map_cons, List.nodup_cons] at hnd
    rcases List.mem_cons.mp hq with h | h
    · subst h
      simp [lookupScore]
    · have hne : ¬ k = q.1 := by
        intro e
        exact hnd.1 (e ▸ List.mem_map.mpr ⟨q, h, rfl⟩)
      simp only [lookupScore, if_neg hne]
      exact ih hnd.2 q h

/-- The selected page of the sorted set is a sublist of the whole set. -/
theorem leaderboardPage_sublist (lb : List (String × ℤ)) (limit : ℕ) :
    ((lb.drop (lb.length - limit)).take
      (lb.length - 1 + 1 - (lb.length - limit))).Sublist lb :=
  (List.take_sublist _ _).trans (List.drop_sublist _ _)

/-- With distinct member keys, the credits column of the GET response is
exactly the reversed score column of the selected page. -/
theorem leaderboardGet_credits_col (lb : List (String × ℤ))
    (recs : List (String × PlayerData)) (limit : ℕ) (t : Option String)
    (hnodup : (lb.map Prod.fst).Nodup) :
    (leaderboardGet lb recs limit t).map (fun e => e.credits)
      = (((lb.drop (lb.length - limit)).take
          (lb.length - 1 + 1 - (lb.length - limit))).map (fun q => q.2)).reverse := by
  by_cases h0 : lb.length = 0
  · rw [List.length_eq_zero.mp h0]
    simp [leaderboardGet]
  · simp only [leaderboardGet, if_neg h0]
    rw [buildEntries_map_credits]
    rw [← List.map_reverse, ← List.map_reverse, List.map_map]
    refine List.map_congr_left ?_
    intro q hq
    have hq1 : q ∈ (lb.drop (lb.length - limit)).take
        (lb.length - 1 + 1 - (lb.length - limit)) := List.mem_reverse.mp hq
    have hq2 : q ∈ lb := (leaderboardPage_sublist lb limit).subset hq1
    simp only [Function.comp_apply]
    rw [lookupScore_of_nodup lb hnodup q hq2]
    rfl

/-- C9 (amended): the GET branch of the leaderboard API ignores the search
term entirely — it returns the same top-`limit` page for every term —
bounded in length by `limit`, with 1-based ranks assigned by position, and
(given distinct members and an ascending-by-score sorted set, as Redis
maintains) ordered descending by credits. -/
theorem leaderboardGet_ignores_search (lb : List (String × ℤ))
    (recs : List (String × PlayerData)) (limit : ℕ) (t u : Option String) :
    leaderboardGet lb recs limit t = leaderboardGet lb recs limit u ∧
    (leaderboardGet lb recs limit t).length ≤ limit ∧
    (leaderboardGet lb recs limit t).map (fun e => e.rank)
      = (List.range (leaderboardGet lb recs limit t).length).map (fun i => i + 1) ∧
    ((lb.map Prod.fst).Nodup → List.Sorted (fun a b => a.2 ≤ b.2) lb →
      List.Sorted (fun a b : ℤ => b ≤ a)
        ((leaderboardGet lb recs limit t).map (fun e => e.credits))) := by
  refine ⟨rfl, ?_, ?_, ?_⟩
  · by_cases h0 : lb.length = 0
    · simp [leaderboardGet, h0]
    · simp only [leaderboardGet, if_neg h0]
      rw [buildEntries_length, List.length_reverse, List.length_map,
        List.length_take, List.length_drop]
      omega
  · by_cases h0 : lb.length = 0
    · simp [leaderboardGet, h0]
    · simp only [leaderboardGet, if_neg h0]
      rw [buildEntries_map_rank, buildEntries_length]
      refine List.map_congr_left ?_
      intro i _
      omega
  · intro hnodup hsorted
    rw [leaderboardGet_credits_col lb recs limit t hnodup]
    have h1 : ((lb.drop (lb.length - limit)).take
        (lb.length - 1 + 1 - (lb.length - limit))).Pairwise
          (fun a b : String × ℤ => a.2 ≤ b.2) :=
      List.Pairwise.sublist (leaderboardPage_sublist lb limit) hsorted
    have h2 := List.Pairwise.map (fun q : String × ℤ => q.2)
      (fun a b hab => hab) h1
    exact List.pairwise_reverse.mpr h2

/-- C9 (counterexample to the claim as stated): with one ranked player
whose username `Alice` and wallet `walletA` contain no occurrence of the
search term `zzz`, the search nevertheless returns that entry — the result
is not restricted to entries matching the term. -/
theorem leaderboardSearch_not_filtering :
    leaderboardGet [("walletA", 50)]
        [("walletA", { username := "Alice", credits := 50, spinsLeft := 5,
                       claimTime := none, walletAddress := "walletA",
                       lastSpinResetDate := none })] 10 (some "zzz")
      = [{ walletAddress := "walletA", username := "Alice", credits := 50,
           rank := 1 }] ∧
    jsIncludes "Alice" "zzz" = false ∧
    jsIncludes "walletA" "zzz" = false := by
  refine ⟨by decide, by decide, by decide⟩

/-- Witness for the amended C9: on a concrete two-player set the response
is term-independent, descending, and ranked 1, 2. -/
theorem leaderboardGet_ignores_search_witness :
    List.Sorted (fun a b : ℤ => b ≤ a)
      ((leaderboardGet [("wA", 10), ("wB", 25)] [] 10 (some "zzz")).map
        (fun e => e.credits)) :=
  (leaderboardGet_ignores_search [("wA", 10), ("wB", 25)] [] 10
    (some "zzz") none).2.2.2 (by decide) (by decide)

end ArcisWheel
